import Mathlib

/-!
# THORChain transaction spammer (`cmd/thorchainspam/txs/send.go`)

A shallow embedding of the spammer engine: the random coin slice computed at
spawn time, the pool construction in `createSpammers` / `SpawnSpammer`, the
start-up checks and the ring of counterparties in `GetTxsSend`, the worker loop
`Spammer.start`, and the resync step `Spammer.updateContext` together with the
capacity-1 channel `queryFree` that serialises chain queries.

Conventions.
* Go `int64` (and `int`, taken as 64 bit) values are integers in
  `[-2^63, 2^63)`; additions and divisions are wrapped by `wrapInt64`.
* A Go panic, and a goroutine blocked for ever on a channel, are `none`
  (`Res.panicked`, `Outcome.panicked` for the start-up functions).
* Printing, sleeping, the rate limiter's pulses and the stats counters are not
  modelled: one input of the worker loop stands for one pulse consumed.
* External collaborators (keystore, chain client, helpers, random source) are
  fields of `Env` or explicit inputs of a loop iteration.
-/

namespace THORChain

/-! ## Machine integers -/

/-- Smallest `int64`. -/
def minInt64 : Int := -(2 ^ 63)

/-- Largest `int64`. -/
def maxInt64 : Int := 2 ^ 63 - 1

/-- Two's-complement wrap-around of an integer into the `int64` range. -/
def wrapInt64 (x : Int) : Int := (x + 2 ^ 63) % 2 ^ 64 - 2 ^ 63

/-- Go's `a / b` on `int64`: the quotient truncated toward zero, wrapped (only
`minInt64 / -1` wraps); a zero divisor is a run-time panic. -/
def int64Div (a b : Int) : Option Int :=
  if b = 0 then none else some (wrapInt64 (Int.tdiv a b))

/-- Go's `rand.Int63n(n)`: panics for `n <= 0`, otherwise reduces a raw
non-negative 63-bit draw `raw` modulo `n`. -/
def Int63n (raw : Nat) (n : Int) : Option Int :=
  if n ≤ 0 then none else some ((raw : Int) % n)

/-! ## Coins and the random slice -/

/-- An `sdk.Coin`; `Amount` is the value `coin.Amount.Int64()` reads. -/
structure Coin where
  Denom : String
  Amount : Int
deriving DecidableEq, Repr

/-- The body of the loop of `getRandomCoinsUpTo` for one coin: the value of the
local `randAmount` when the coin is appended, for the raw draw `raw`. -/
def randAmount (amount divideBy : Int) (raw : Nat) : Option Int :=
  match int64Div amount divideBy with
  | none => none
  | some q =>
    match (if q > 0 then Int63n raw q else some 0) with
    | none => none
    | some r => some (if r = 0 ∧ amount ≥ 1 then 1 else r)

/-- The function `getRandomCoinsUpTo`: one slice per coin, in order; `rng i` is
the raw draw available to the coin at position `i`. -/
def getRandomCoinsUpTo : List Coin → Int → (Nat → Nat) → Option (List Coin)
  | [], _, _ => some []
  | coin :: rest, divideBy, rng =>
    match randAmount coin.Amount divideBy (rng 0) with
    | none => none
    | some r =>
      match getRandomCoinsUpTo rest divideBy (fun i => rng (i + 1)) with
      | none => none
      | some res => some ({ Denom := coin.Denom, Amount := r } :: res)

/-! ## The query gate: a buffered channel of capacity one -/

/-- A buffered Go channel of `bool`; only the number of buffered values
matters, since every value sent is `true`. -/
structure Chan where
  cap : Nat
  buf : Nat
deriving DecidableEq, Repr

/-- The call `make(chan bool, cap)`: an empty channel. -/
def Chan.make (cap : Nat) : Chan := { cap := cap, buf := 0 }

/-- The statement `ch <- true`: `none` when the buffer is full (the sender
blocks). -/
def Chan.send (c : Chan) : Option Chan :=
  if c.buf < c.cap then some { c with buf := c.buf + 1 } else none

/-- The statement `<-ch`: `none` when the buffer is empty (the receiver
blocks). -/
def Chan.recv (c : Chan) : Option Chan :=
  if 0 < c.buf then some { c with buf := c.buf - 1 } else none

/-- The value of a `queryFree` field: the nil channel of a zero `Spammer`, or
the channel made by `createSpammers`. -/
inductive ChanRef where
  | nil
  | gate
deriving DecidableEq, Repr

/-! ## External collaborators -/

/-- An `sdk.AccAddress`: a byte string. -/
abbrev Address := List Nat

/-- A `tmcrypto.PrivKey`, as its bytes. -/
abbrev PrivKey := List Nat

/-- A `cryptokeys.Info`: the name of a keystore identity and the address of its
public key. -/
structure Info where
  name : String
  pubKeyAddress : List Nat
deriving DecidableEq, Repr

/-- The part of `context.CoreContext` the engine sets. -/
structure CoreContext where
  ChainID : String
  FromAddress : Address
  Sequence : Int
deriving DecidableEq, Repr

/-- The method `CoreContext.WithSequence`. -/
def CoreContext.WithSequence (ctx : CoreContext) (sequence : Int) : CoreContext :=
  { ctx with Sequence := sequence }

/-- An `auth.Account`, as the coins `GetCoins` returns. -/
structure Account where
  coins : List Coin
deriving DecidableEq, Repr

/-- The keystore, the chain client, the helpers and the random source that
`send.go` calls but does not define. An `Except.error` is a returned Go error. -/
structure Env where
  /-- The call `keys.GetKeyBase()`. -/
  getKeyBase : Except String Unit
  /-- The call `kb.List()`. -/
  list : Except String (List Info)
  /-- The call `context.NewCoreContextFromViper().WithDecoder(..)`. -/
  newCoreContext : CoreContext
  /-- The call `helpers.GetFromAddress(kb, name)`. -/
  getFromAddress : String → Except String Address
  /-- The call `helpers.SetupContext(ctx, from, chainId, 0)`. -/
  setupContext : CoreContext → Address → String → Except String CoreContext
  /-- The call `ctx.QueryStore(auth.AddressStoreKey(addr), ctx.AccountStore)`;
  `none` is a nil byte slice. -/
  queryStore : CoreContext → Address → Except String (Option (List Nat))
  /-- The call `ctx.Decoder(accBytes)`. -/
  decoder : List Nat → Except String Account
  /-- The method `sdk.Coins.IsPositive`. -/
  isPositive : List Coin → Bool
  /-- The call `ctx.NextSequence(addr)`: the value returned and whether an
  error came with it. -/
  nextSequence : Address → Int × Bool
  /-- The call `kb.ExportPrivateKeyObject(name, password)`; `none` is an
  error. -/
  exportPrivateKeyObject : String → String → Option PrivKey
  /-- The raw draws of `math/rand`. -/
  rng : Nat → Nat

/-! ## The spammer -/

/-- The struct `Spammer` (the codec pointer `cdc` carries no state and is left
out). -/
structure Spammer where
  accountName : String
  password : String
  accountAddress : Address
  index : Int
  currentSequence : Int
  ctx : CoreContext
  priv : Option PrivKey
  randomCoins : List Coin
  sequenceCheck : Int
  queryFree : ChanRef
  clpFrom : String
  clpTo : String
deriving DecidableEq, Repr

/-- The composite literal `Spammer{}`: every field at its zero value. -/
def Spammer.zero : Spammer :=
  { accountName := "", password := "", accountAddress := [], index := 0,
    currentSequence := 0, ctx := { ChainID := "", FromAddress := [], Sequence := 0 },
    priv := none, randomCoins := [], sequenceCheck := 0, queryFree := ChanRef.nil,
    clpFrom := "", clpTo := "" }

/-- The function `getAddr`. -/
def getAddr (info : Info) : Address := info.pubKeyAddress

/-- The function `getAcc`: query the account store, fail on nil bytes, decode. -/
def getAcc (env : Env) (ctx : CoreContext) (info : Info) : Except String Account :=
  match env.queryStore ctx (getAddr info) with
  | Except.error e => Except.error e
  | Except.ok none => Except.error "No account with address was found in the state."
  | Except.ok (some accBytes) => env.decoder accBytes

/-- The function `SpawnSpammer`. `none` is the panic on a key export error; the
early returns give `Spammer{}`. Printing and the stats counters are not
modelled. -/
def SpawnSpammer (env : Env) (localAccountName spamPassword : String) (index : Int)
    (spammerInfo : Info) (chainId : String) (queryFree : ChanRef) : Option Spammer :=
  match env.getFromAddress localAccountName with
  | Except.error _ => some Spammer.zero
  | Except.ok fromAddr =>
    match env.setupContext env.newCoreContext fromAddr chainId with
    | Except.error _ => some Spammer.zero
    | Except.ok ctx =>
      match getAcc env ctx spammerInfo with
      | Except.error _ => some Spammer.zero
      | Except.ok fromAcc =>
        match getRandomCoinsUpTo fromAcc.coins 1000 env.rng with
        | none => none
        | some randomCoins =>
          if !env.isPositive randomCoins then some Spammer.zero
          else
            match env.exportPrivateKeyObject localAccountName spamPassword with
            | none => none
            | some priv =>
              some { accountName := localAccountName, password := spamPassword,
                     accountAddress := fromAddr, index := index,
                     currentSequence := (env.nextSequence fromAddr).1, ctx := ctx,
                     priv := some priv, randomCoins := randomCoins, sequenceCheck := 0,
                     queryFree := queryFree, clpFrom := "RUNE", clpTo := "ETH" }

/-- The outcome of a start-up function: a value, a returned error, or a
panic. -/
inductive Res (α : Type) where
  | ok (a : α)
  | err (msg : String)
  | panicked
deriving DecidableEq, Repr

/-- What start-up does to the outside world, in order. -/
inductive Event where
  /-- The keystore was opened (`keys.GetKeyBase`). -/
  | keyBase
  /-- The keystore was listed (`kb.List`). -/
  | listed
  /-- The function `SpawnSpammer` was called for this identity with this index. -/
  | spawn (info : Info) (index : Int)
  /-- The statement `go spammers[i].start(&nextSpammer, ..)` ran. -/
  | started (i : Nat) (worker nextSpammer : Spammer)
deriving DecidableEq, Repr

/-- The function `strings.HasPrefix(s, pre)`, on the characters of the two
strings (for UTF-8 text the same as on their bytes). -/
def HasPrefix (s pre : String) : Bool := pre.toList.isPrefixOf s.toList

/-- The loop of `createSpammers` over `infos`, from the pool `spammers` and the
counter `j`; the events are the spawn calls made. -/
def createSpammersLoop (env : Env) (spamPrefix spamPassword chainID : String) :
    List Info → List Spammer → Int → List Event × Option (List Spammer)
  | [], spammers, _ => ([], some spammers)
  | info :: infos, spammers, j =>
    if HasPrefix info.name spamPrefix then
      match SpawnSpammer env info.name spamPassword j info chainID ChanRef.gate with
      | none => ([Event.spawn info j], none)
      | some newSpammer =>
        let rest := createSpammersLoop env spamPrefix spamPassword chainID infos
          (spammers ++ [newSpammer]) (wrapInt64 (j + 1))
        (Event.spawn info j :: rest.1, rest.2)
    else createSpammersLoop env spamPrefix spamPassword chainID infos spammers j

/-- The function `createSpammers`: the events, and the pool with the state of
the channel `queryFree` it made. -/
def createSpammers (env : Env) (spamPrefix spamPassword chainID : String) :
    List Event × Res (List Spammer × Chan) :=
  match env.getKeyBase with
  | Except.error e => ([Event.keyBase], Res.err e)
  | Except.ok _ =>
    match env.list with
    | Except.error e => ([Event.keyBase, Event.listed], Res.err e)
    | Except.ok infos =>
      match (Chan.make 1).send with
      | none => ([Event.keyBase, Event.listed], Res.panicked)
      | some queryFree =>
        match createSpammersLoop env spamPrefix spamPassword chainID infos [] 0 with
        | (evs, none) => (Event.keyBase :: Event.listed :: evs, Res.panicked)
        | (evs, some spammers) =>
          (Event.keyBase :: Event.listed :: evs, Res.ok (spammers, queryFree))

/-- The loop of `GetTxsSend` that starts the workers, from index `i` with
`remaining` iterations left; `none` is an index out of range. -/
def startWorkers (spammers : List Spammer) : Nat → Nat → Option (List Event)
  | _, 0 => some []
  | i, remaining + 1 =>
    match spammers[(i + 1) % spammers.length]?, spammers[i]? with
    | some nextSpammer, some worker =>
      match startWorkers spammers (i + 1) remaining with
      | none => none
      | some evs => some (Event.started i worker nextSpammer :: evs)
    | _, _ => none

/-- The flags `GetTxsSend` reads through viper. -/
structure Flags where
  chainID : String
  spamPrefix : String
  spamPassword : String
deriving DecidableEq, Repr

/-- How a call of `GetTxsSend` ends. -/
inductive Outcome where
  /-- An error was returned. -/
  | error (msg : String)
  /-- A panic. -/
  | panicked
  /-- All workers were started and the call blocks in `wg.Wait()`. -/
  | running
deriving DecidableEq, Repr

/-- The command function returned by `GetTxsSend`. -/
def GetTxsSend (env : Env) (flags : Flags) : List Event × Outcome :=
  if flags.chainID = "" then ([], Outcome.error "--chain-id is required")
  else if flags.spamPassword = "" then ([], Outcome.error "--spam-password is required")
  else
    match createSpammers env flags.spamPrefix flags.spamPassword flags.chainID with
    | (evs, Res.err e) => (evs, Outcome.error e)
    | (evs, Res.panicked) => (evs, Outcome.panicked)
    | (evs, Res.ok (spammers, _)) =>
      if spammers.length = 0 then
        (evs, Outcome.error
          "no spam accounts found, please create them with thorchainspam account ensure")
      else
        match startWorkers spammers 0 spammers.length with
        | none => (evs, Outcome.panicked)
        | some started => (evs ++ started, Outcome.running)

/-! ## The worker loop -/

/-- What `ctx.NextSequence` answers when `updateContext` asks: the value, and
whether an error came with it (the error is only printed). -/
structure QueryResult where
  nextSequence : Int
  err : Bool
deriving DecidableEq, Repr

/-- The method `Spammer.flipCLPTickers`. -/
def Spammer.flipCLPTickers (sp : Spammer) : Spammer :=
  let tmp := sp.clpFrom
  let sp := { sp with clpFrom := sp.clpTo }
  { sp with clpTo := tmp }

/-- The method `Spammer.updateContext`, run to its end by one worker while no
other worker moves: `ch` is the state of the channel made by `createSpammers`,
`q` the answer of the chain. `none`: the worker blocks (nil channel, or no
permit in the channel). -/
def Spammer.updateContext (sp : Spammer) (ch : Chan) (q : QueryResult) :
    Option (Spammer × Chan) :=
  match sp.queryFree with
  | ChanRef.nil => none
  | ChanRef.gate =>
    match ch.recv with
    | none => none
    | some ch1 =>
      let sp := { sp with currentSequence := q.nextSequence }
      match ch1.send with
      | none => none
      | some ch2 => some ({ sp with sequenceCheck := 0 }, ch2)

/-- The messages the loop builds. -/
inductive Msg where
  /-- The message `clpTypes.NewMsgTrade(sender, fromTicker, toTicker, amount)`. -/
  | trade (sender : Address) (fromTicker toTicker : String) (amount : Int)
  /-- The message `client.BuildMsg(sender, receiver, coins)`. -/
  | send (sender receiver : Address) (coins : List Coin)
deriving DecidableEq, Repr

/-- What one iteration of the loop gets from outside: the coin flip
`rand.Float32() < 0.5`, whether `helpers.PrivProcessMsg` returned an error, and
the chain's answer should the iteration resync. -/
structure IterInput where
  clpMsg : Bool
  submitErr : Bool
  query : QueryResult
deriving DecidableEq, Repr

/-- What one iteration of the loop does: the sequence it put in the context
for signing, the message it built, whether the submission succeeded, and
whether it called `updateContext`. -/
structure IterRecord where
  sequence : Int
  msg : Msg
  succeeded : Bool
  resynced : Bool
deriving DecidableEq, Repr

/-- One iteration of the loop of `Spammer.start`, after the limiter's pulse. The
record is what the iteration did; the state is `none` when the worker blocked
inside `updateContext`. -/
def Spammer.iteration (sp nextSpammer : Spammer) (ch : Chan) (inp : IterInput) :
    IterRecord × Option (Spammer × Chan) :=
  let sp := { sp with ctx := sp.ctx.WithSequence sp.currentSequence }
  let msg :=
    if inp.clpMsg then Msg.trade sp.accountAddress sp.clpFrom sp.clpTo 1
    else Msg.send sp.accountAddress nextSpammer.accountAddress sp.randomCoins
  if inp.submitErr then
    ({ sequence := sp.ctx.Sequence, msg := msg, succeeded := false, resynced := true },
      sp.updateContext ch inp.query)
  else
    let sp1 := { sp with currentSequence := wrapInt64 (sp.currentSequence + 1) }
    let sp2 := { sp1 with sequenceCheck := wrapInt64 (sp1.sequenceCheck + 1) }
    if sp2.sequenceCheck ≥ 50000 then
      ({ sequence := sp.ctx.Sequence, msg := msg, succeeded := true, resynced := true },
        sp2.updateContext ch inp.query)
    else
      ({ sequence := sp.ctx.Sequence, msg := msg, succeeded := true, resynced := false },
        some (sp2, ch))

/-- The method `Spammer.start` over the pulses for which `inputs` gives the
outside world: the records of the iterations begun, in order, and the state at
the top of the next iteration (`none` when the worker blocked). -/
def Spammer.start (sp nextSpammer : Spammer) (ch : Chan) :
    List IterInput → List IterRecord × Option (Spammer × Chan)
  | [] => ([], some (sp, ch))
  | inp :: inputs =>
    match sp.iteration nextSpammer ch inp with
    | (r, none) => ([r], none)
    | (r, some (sp1, ch1)) =>
      let rest := Spammer.start sp1 nextSpammer ch1 inputs
      (r :: rest.1, rest.2)

/-- Number of successful submissions after the last resync in a history of
iterations (oldest first). -/
def successesSinceResync (records : List IterRecord) : Nat :=
  records.foldl
    (fun n r => if r.resynced then 0 else if r.succeeded then n + 1 else n) 0

/-- The trade messages of a history, as the ticker pairs they carry. -/
def tradePairs : List IterRecord → List (String × String)
  | [] => []
  | r :: rs =>
    match r.msg with
    | Msg.trade _ f t _ => (f, t) :: tradePairs rs
    | Msg.send _ _ _ => tradePairs rs

/-! ## Workers interleaved at the query gate -/

/-- Where a worker stands relative to `updateContext`: outside it, at the
receive `<-sp.queryFree`, or between its receive and its send. -/
inductive PC where
  | sending
  | waiting
  | holding
deriving DecidableEq, Repr

/-- The channel `queryFree` and the position of every worker. -/
structure GateState where
  chan : Chan
  pcs : List PC
deriving DecidableEq, Repr

/-- The state `createSpammers` leaves for `n` workers: the channel made with
capacity one after `queryFree <- true`, all workers outside `updateContext`. -/
def GateState.init (n : Nat) : Option GateState :=
  match (Chan.make 1).send with
  | none => none
  | some ch => some { chan := ch, pcs := List.replicate n PC.sending }

/-- Worker `i` takes its next step: it enters `updateContext`, or receives from
the channel, or sends to it; a worker that would block does not move. -/
def GateState.step (s : GateState) (i : Nat) : GateState :=
  match s.pcs[i]? with
  | none => s
  | some PC.sending => { s with pcs := s.pcs.set i PC.waiting }
  | some PC.waiting =>
    match s.chan.recv with
    | none => s
    | some ch => { chan := ch, pcs := s.pcs.set i PC.holding }
  | some PC.holding =>
    match s.chan.send with
    | none => s
    | some ch => { chan := ch, pcs := s.pcs.set i PC.sending }

/-- The state after the workers named by `schedule` have stepped in turn. -/
def GateState.run (s : GateState) (schedule : List Nat) : GateState :=
  schedule.foldl GateState.step s

/-- Number of workers between their receive and their send. -/
def holders : List PC → Nat
  | [] => 0
  | PC.holding :: rest => holders rest + 1
  | _ :: rest => holders rest

/-! ## Reading the start-up events -/

/-- The identities `SpawnSpammer` was called for, in order. -/
def spawnedInfos : List Event → List Info
  | [] => []
  | Event.spawn info _ :: evs => info :: spawnedInfos evs
  | _ :: evs => spawnedInfos evs

/-- The workers started, in order: index, worker and counterparty. -/
def startedWorkers : List Event → List (Nat × Spammer × Spammer)
  | [] => []
  | Event.started i worker nextSpammer :: evs => (i, worker, nextSpammer) :: startedWorkers evs
  | _ :: evs => startedWorkers evs

/-- The keystore calls made directly by `createSpammers`. -/
def keystoreCalls : List Event → Nat
  | [] => 0
  | Event.keyBase :: evs => keystoreCalls evs + 1
  | Event.listed :: evs => keystoreCalls evs + 1
  | _ :: evs => keystoreCalls evs

/-! ## Concrete inputs used to exercise the definitions -/

/-- `IsPositive` of `sdk.Coins`: at least one coin and every amount positive. -/
def coinsPositive (coins : List Coin) : Bool :=
  !coins.isEmpty && coins.all (fun c => decide (0 < c.Amount))

/-- A keystore with identities `spam-0`, `other` and `spam-1`; the chain has an
account (1000 RUNE, sequence 5) for the address of `spam-0` only. -/
def sampleEnv : Env :=
  { getKeyBase := Except.ok ()
    list := Except.ok [Info.mk "spam-0" [1], Info.mk "other" [2], Info.mk "spam-1" [3]]
    newCoreContext := CoreContext.mk "" [] 0
    getFromAddress := fun name =>
      if name = "spam-0" then Except.ok [1]
      else if name = "other" then Except.ok [2]
      else if name = "spam-1" then Except.ok [3]
      else Except.error "key not found"
    setupContext := fun ctx fromAddr chainId =>
      Except.ok { ctx with ChainID := chainId, FromAddress := fromAddr }
    queryStore := fun _ addr => if addr = [1] then Except.ok (some [10]) else Except.ok none
    decoder := fun _ => Except.ok (Account.mk [Coin.mk "RUNE" 1000])
    isPositive := coinsPositive
    nextSequence := fun _ => (5, false)
    exportPrivateKeyObject := fun _ _ => some [9]
    rng := fun _ => 7 }

/-- The same keystore in front of a chain that has no account at all. -/
def emptyChainEnv : Env :=
  { sampleEnv with queryStore := fun _ _ => Except.ok none }

/-- The flags of a run over the identities whose name starts with `spam`. -/
def sampleFlags : Flags :=
  { chainID := "thorchain", spamPrefix := "spam", spamPassword := "secret" }

/-- The spammer `SpawnSpammer` builds for `spam-0` in `sampleEnv`. -/
def sampleSpammer : Spammer :=
  { accountName := "spam-0", password := "secret", accountAddress := [1], index := 0,
    currentSequence := 5, ctx := CoreContext.mk "thorchain" [1] 0, priv := some [9],
    randomCoins := [Coin.mk "RUNE" 1], sequenceCheck := 0, queryFree := ChanRef.gate,
    clpFrom := "RUNE", clpTo := "ETH" }

/-- The worker `sampleSpammer` after a successful trade, a failed transfer whose
resync answers `9`, and a successful transfer. -/
def sampleSpammerLater : Spammer :=
  { sampleSpammer with
    currentSequence := 10, sequenceCheck := 1, ctx := CoreContext.mk "thorchain" [1] 9 }

/-! ## Facts about the random slice -/

theorem wrapInt64_of_range {x : Int} (h1 : minInt64 ≤ x) (h2 : x ≤ maxInt64) :
    wrapInt64 x = x := by
  unfold wrapInt64
  unfold minInt64 at h1
  unfold maxInt64 at h2
  rw [Int.emod_eq_of_lt (by omega) (by omega)]
  omega

theorem tdiv_range {a d : Int} (hd : 1 ≤ d) (h1 : minInt64 ≤ a) (h2 : a ≤ maxInt64) :
    minInt64 ≤ Int.tdiv a d ∧ Int.tdiv a d ≤ maxInt64
      ∧ (a ≤ 0 → Int.tdiv a d ≤ 0) ∧ (0 ≤ a → Int.tdiv a d ≤ a) := by
  rcases le_total 0 a with ha | ha
  · have e : Int.tdiv a d = a / d := Int.tdiv_eq_ediv ha (by omega)
    have hnn : 0 ≤ a / d := Int.ediv_nonneg ha (by omega)
    have hle : a / d ≤ a := Int.ediv_le_self d ha
    rw [e]
    unfold minInt64
    refine ⟨by omega, by omega, ?_, fun _ => hle⟩
    intro h0
    have : a = 0 := le_antisymm h0 ha
    subst this
    simp
  · have e : Int.tdiv a d = -((-a) / d) := by
      have := Int.tdiv_eq_ediv (a := -a) (b := d) (by omega) (by omega)
      rw [Int.neg_tdiv] at this
      omega
    have hnn : 0 ≤ (-a) / d := Int.ediv_nonneg (by omega) (by omega)
    have hle : (-a) / d ≤ -a := Int.ediv_le_self d (by omega)
    rw [e]
    unfold maxInt64
    refine ⟨by omega, by omega, fun _ => by omega, ?_⟩
    intro h0
    have : a = 0 := le_antisymm ha h0
    subst this
    simp

/-- Every value in `[0, n)` is the outcome of `Int63n` for some raw draw. -/
theorem Int63n_attains (n k : Int) (h0 : 0 ≤ k) (hk : k < n) :
    Int63n k.toNat n = some k := by
  unfold Int63n
  have hn : ¬ n ≤ 0 := by omega
  rw [if_neg hn, Int.toNat_of_nonneg h0, Int.emod_eq_of_lt h0 hk]

/-- The slice rule for one coin, for an `int64` amount and `divideBy >= 1`. -/
theorem randAmount_spec (a d : Int) (raw : Nat) (hd : 1 ≤ d)
    (h1 : minInt64 ≤ a) (h2 : a ≤ maxInt64) :
    ∃ r, randAmount a d raw = some r ∧ (a ≤ 0 → r = 0)
      ∧ (1 ≤ a → 1 ≤ r ∧ r ≤ a ∧ (r = 1 ∨ r < Int.tdiv a d)) := by
  obtain ⟨q1, q2, q3, q4⟩ := tdiv_range hd h1 h2
  have hq : int64Div a d = some (Int.tdiv a d) := by
    unfold int64Div
    rw [if_neg (by omega), wrapInt64_of_range q1 q2]
  unfold randAmount
  rw [hq]
  by_cases hpos : Int.tdiv a d > 0
  · have hn : ¬ Int.tdiv a d ≤ 0 := by omega
    have hm0 : 0 ≤ (raw : Int) % Int.tdiv a d := Int.emod_nonneg _ (by omega)
    have hm1 : (raw : Int) % Int.tdiv a d < Int.tdiv a d := Int.emod_lt_of_pos _ hpos
    have hapos : 1 ≤ a := by
      by_contra hcon
      have := q3 (by omega)
      omega
    have hqa := q4 (by omega)
    simp only [if_pos hpos, Int63n, if_neg hn]
    by_cases hz : (raw : Int) % Int.tdiv a d = 0
    · refine ⟨1, ?_, fun h => by omega, fun _ => ⟨by omega, by omega, Or.inl rfl⟩⟩
      simp [hz, hapos]
    · refine ⟨(raw : Int) % Int.tdiv a d, ?_, fun h => by omega,
        fun _ => ⟨by omega, by omega, Or.inr hm1⟩⟩
      simp [hz]
  · simp only [if_neg hpos]
    by_cases hapos : 1 ≤ a
    · refine ⟨1, ?_, fun h => by omega, fun _ => ⟨by omega, by omega, Or.inl rfl⟩⟩
      simp [hapos]
    · refine ⟨0, ?_, fun _ => rfl, fun h => absurd h hapos⟩
      simp [hapos]

/-- C1: for `divideBy >= 1` and `int64` amounts, `getRandomCoinsUpTo` returns one
coin per holding, with the same denomination, whatever the draws; the slice `r`
of a holding `a` is `0` when `a <= 0`, and when `a >= 1` it has `1 <= r <= a` and
`r = 1` or `r < a / divideBy` (truncated division). A holding of `1000` with
`divideBy = 1000` gives exactly `1` for every draw, and a holding of `0` gives
`0`. -/
theorem getRandomCoinsUpTo_slice (coins : List Coin) (divideBy : Int) (rng : Nat → Nat)
    (hd : 1 ≤ divideBy) (hc : ∀ c ∈ coins, minInt64 ≤ c.Amount ∧ c.Amount ≤ maxInt64) :
    (∃ res, getRandomCoinsUpTo coins divideBy rng = some res ∧
      List.Forall₂ (fun (c r : Coin) => r.Denom = c.Denom ∧ (c.Amount ≤ 0 → r.Amount = 0) ∧
        (1 ≤ c.Amount → 1 ≤ r.Amount ∧ r.Amount ≤ c.Amount ∧
          (r.Amount = 1 ∨ r.Amount < Int.tdiv c.Amount divideBy))) coins res)
    ∧ (∀ raw, randAmount 1000 1000 raw = some 1)
    ∧ (∀ raw, randAmount 0 divideBy raw = some 0) := by
  refine ⟨?_, ?_, ?_⟩
  · induction coins generalizing rng with
    | nil => exact ⟨[], rfl, List.Forall₂.nil⟩
    | cons c rest ih =>
      obtain ⟨r, hr, hz, hp⟩ :=
        randAmount_spec c.Amount divideBy (rng 0) hd
          (hc c (List.mem_cons_self _ _)).1 (hc c (List.mem_cons_self _ _)).2
      obtain ⟨res, hres, hall⟩ :=
        ih (fun i => rng (i + 1)) (fun x hx => hc x (List.mem_cons_of_mem _ hx))
      refine ⟨{ Denom := c.Denom, Amount := r } :: res, ?_, ?_⟩
      · simp only [getRandomCoinsUpTo, hr, hres]
      · exact List.Forall₂.cons ⟨rfl, hz, hp⟩ hall
  · intro raw
    obtain ⟨r, hr, _, hp⟩ :=
      randAmount_spec 1000 1000 raw (by decide) (by decide) (by decide)
    obtain ⟨h1, _, h3⟩ := hp (by decide)
    have hq : Int.tdiv 1000 1000 = 1 := by decide
    rw [hq] at h3
    have : r = 1 := by omega
    rw [hr, this]
  · intro raw
    have h1 : minInt64 ≤ (0 : Int) := by decide
    have h2 : (0 : Int) ≤ maxInt64 := by decide
    obtain ⟨r, hr, hz, _⟩ := randAmount_spec 0 divideBy raw hd h1 h2
    rw [hr, hz (le_refl 0)]

/-- C1 at a concrete account: `1000` RUNE and `0` ETH with `divideBy = 1000`. -/
theorem getRandomCoinsUpTo_slice_witness :
    (∃ res, getRandomCoinsUpTo
        [{ Denom := "RUNE", Amount := 1000 }, { Denom := "ETH", Amount := 0 }] 1000
        (fun _ => 7) = some res ∧
      List.Forall₂ (fun (c r : Coin) => r.Denom = c.Denom ∧ (c.Amount ≤ 0 → r.Amount = 0) ∧
        (1 ≤ c.Amount → 1 ≤ r.Amount ∧ r.Amount ≤ c.Amount ∧
          (r.Amount = 1 ∨ r.Amount < Int.tdiv c.Amount 1000)))
        [{ Denom := "RUNE", Amount := 1000 }, { Denom := "ETH", Amount := 0 }] res)
    ∧ (∀ raw, randAmount 1000 1000 raw = some 1)
    ∧ (∀ raw, randAmount 0 1000 raw = some 0) :=
  getRandomCoinsUpTo_slice
    [{ Denom := "RUNE", Amount := 1000 }, { Denom := "ETH", Amount := 0 }] 1000
    (fun _ => 7) (by decide) (by decide)

/-- The slices of an account with three holdings, for given raw draws. -/
theorem getRandomCoinsUpTo_sample : getRandomCoinsUpTo
    [{ Denom := "RUNE", Amount := 1000 }, { Denom := "ETH", Amount := 0 },
     { Denom := "BTC", Amount := 123456 }] 1000 (fun i => 1000 * i + 77)
    = some [{ Denom := "RUNE", Amount := 1 }, { Denom := "ETH", Amount := 0 },
            { Denom := "BTC", Amount := 2077 % 123 }] := by decide

/-! ## Facts about the query gate -/

/-- Replacing the position of one worker changes the number of holders by what
that worker contributes. -/
theorem holders_set (l : List PC) (i : Nat) (old new : PC) (h : l[i]? = some old) :
    holders (l.set i new) + (if old = PC.holding then 1 else 0)
      = holders l + (if new = PC.holding then 1 else 0) := by
  induction l generalizing i with
  | nil => simp at h
  | cons x xs ih =>
    cases i with
    | zero =>
      simp only [List.getElem?_cons_zero, Option.some.injEq] at h
      subst h
      cases x <;> cases new <;> simp [holders, List.set]
    | succ k =>
      simp only [List.getElem?_cons_succ] at h
      have := ih k h
      cases x <;> simp only [holders, List.set] <;> omega

/-- Two different workers that both hold the permit make two holders. -/
theorem two_le_holders (l : List PC) (i j : Nat) (hij : i ≠ j)
    (hi : l[i]? = some PC.holding) (hj : l[j]? = some PC.holding) : 2 ≤ holders l := by
  have h1 := holders_set l i PC.holding PC.sending hi
  have hj2 : (l.set i PC.sending)[j]? = some PC.holding := by
    rw [List.getElem?_set_ne hij]
    exact hj
  have h2 := holders_set (l.set i PC.sending) j PC.holding PC.sending hj2
  simp at h1 h2
  omega

/-- The invariant of the gate: capacity one, and the permit is either in the
channel or with exactly one worker. -/
theorem gate_step_invariant (s : GateState) (i : Nat)
    (h : s.chan.cap = 1 ∧ s.chan.buf + holders s.pcs = 1) :
    (s.step i).chan.cap = 1 ∧ (s.step i).chan.buf + holders (s.step i).pcs = 1
      ∧ (s.step i).pcs.length = s.pcs.length := by
  obtain ⟨hcap, hinv⟩ := h
  unfold GateState.step
  cases hpc : s.pcs[i]? with
  | none => exact ⟨hcap, hinv, rfl⟩
  | some pc =>
    cases pc with
    | sending =>
      have := holders_set s.pcs i PC.sending PC.waiting hpc
      simp at this
      simp only [List.length_set]
      exact ⟨hcap, by omega, trivial⟩
    | waiting =>
      by_cases hb : 0 < s.chan.buf
      · have := holders_set s.pcs i PC.waiting PC.holding hpc
        simp at this
        simp only [Chan.recv, if_pos hb, List.length_set]
        exact ⟨hcap, by omega, trivial⟩
      · simp only [Chan.recv, if_neg hb]
        exact ⟨hcap, hinv, trivial⟩
    | holding =>
      by_cases hb : s.chan.buf < s.chan.cap
      · have := holders_set s.pcs i PC.holding PC.sending hpc
        simp at this
        simp only [Chan.send, if_pos hb, List.length_set]
        exact ⟨hcap, by omega, trivial⟩
      · simp only [Chan.send, if_neg hb]
        exact ⟨hcap, hinv, trivial⟩

theorem gate_run_invariant (schedule : List Nat) (s : GateState)
    (h : s.chan.cap = 1 ∧ s.chan.buf + holders s.pcs = 1) :
    (s.run schedule).chan.cap = 1
      ∧ (s.run schedule).chan.buf + holders (s.run schedule).pcs = 1
      ∧ (s.run schedule).pcs.length = s.pcs.length := by
  induction schedule generalizing s with
  | nil => exact ⟨h.1, h.2, rfl⟩
  | cons i rest ih =>
    obtain ⟨a, b, c⟩ := gate_step_invariant s i h
    obtain ⟨a2, b2, c2⟩ := ih (s.step i) ⟨a, b⟩
    exact ⟨a2, b2, c2.trans c⟩

theorem holders_replicate_sending (n : Nat) : holders (List.replicate n PC.sending) = 0 := by
  induction n with
  | zero => rfl
  | succ k ih => simpa [List.replicate, holders] using ih

/-- C2: from the state `createSpammers` sets up (a capacity-1 channel holding one
token, `n` workers outside `updateContext`), after any interleaving of worker
steps the tokens in the channel plus the workers between their receive and their
send number exactly one; so at most one worker holds the permit, and two workers
that hold it are the same worker. A holder's send never blocks. -/
theorem queryGate_mutual_exclusion (n : Nat) (schedule : List Nat) :
    ∃ s0, GateState.init n = some s0 ∧ s0.chan = Chan.mk 1 1 ∧
      (s0.run schedule).chan.buf + holders (s0.run schedule).pcs = 1 ∧
      holders (s0.run schedule).pcs ≤ 1 ∧
      (s0.run schedule).pcs.length = n ∧
      (∀ i j : Nat, (s0.run schedule).pcs[i]? = some PC.holding →
        (s0.run schedule).pcs[j]? = some PC.holding → i = j) ∧
      (∀ i : Nat, (s0.run schedule).pcs[i]? = some PC.holding →
        (s0.run schedule).chan.send ≠ none) := by
  refine ⟨GateState.mk (Chan.mk 1 1) (List.replicate n PC.sending), rfl, rfl, ?_⟩
  have h0 : (1 : Nat) = 1 ∧ 1 + holders (List.replicate n PC.sending) = 1 := by
    rw [holders_replicate_sending]
    exact ⟨rfl, rfl⟩
  obtain ⟨hcap, hinv, hlen⟩ := gate_run_invariant schedule
    (GateState.mk (Chan.mk 1 1) (List.replicate n PC.sending)) h0
  refine ⟨hinv, by omega, by simpa using hlen, ?_, ?_⟩
  · intro i j hi hj
    by_contra hij
    have := two_le_holders _ i j hij hi hj
    omega
  · intro i hi
    have h1 := holders_set _ i PC.holding PC.sending hi
    simp at h1
    have hb : (GateState.run (GateState.mk (Chan.mk 1 1)
        (List.replicate n PC.sending)) schedule).chan.buf
        < (GateState.run (GateState.mk (Chan.mk 1 1)
        (List.replicate n PC.sending)) schedule).chan.cap := by omega
    simp [Chan.send, hb]

/-- Three workers at the gate: worker 0 resyncs, then worker 1 takes the permit
while worker 2 waits. -/
theorem gate_run_sample : (GateState.init 3).map (fun s => (s.run [0, 1, 0, 1, 2, 2, 1, 0, 1, 2]))
    = some (GateState.mk (Chan.mk 1 0) [PC.sending, PC.holding, PC.waiting]) := by decide

/-! ## Facts about the resync step and the worker loop -/

/-- With the channel of the pool and a permit in it, `updateContext` returns,
with the channel as it found it. -/
theorem updateContext_eq (sp : Spammer) (ch : Chan) (q : QueryResult)
    (hq : sp.queryFree = ChanRef.gate) (h1 : 0 < ch.buf) (h2 : ch.buf ≤ ch.cap) :
    sp.updateContext ch q
      = some ({ sp with currentSequence := q.nextSequence, sequenceCheck := 0 }, ch) := by
  have h3 : ch.buf - 1 < ch.cap := by omega
  have h4 : ch.buf - 1 + 1 = ch.buf := by omega
  unfold Spammer.updateContext
  rw [hq]
  simp only [Chan.recv, if_pos h1, Chan.send, if_pos h3, h4]

/-- When `updateContext` returns, the counter is zero and the channel field is
unchanged. -/
theorem updateContext_some (sp sp1 : Spammer) (ch ch1 : Chan) (q : QueryResult)
    (h : sp.updateContext ch q = some (sp1, ch1)) :
    sp1.sequenceCheck = 0 ∧ sp1.queryFree = sp.queryFree ∧ sp1.clpFrom = sp.clpFrom
      ∧ sp1.clpTo = sp.clpTo := by
  unfold Spammer.updateContext at h
  split at h
  · exact absurd h (by simp)
  · split at h
    · exact absurd h (by simp)
    · split at h
      · exact absurd h (by simp)
      · simp only [Option.some.injEq, Prod.mk.injEq] at h
        obtain ⟨h, _⟩ := h
        subst h
        exact ⟨rfl, rfl, rfl, rfl⟩

/-- C5: when the worker has the pool's channel and a permit is in it, a resync
returns; afterwards the local sequence is the value the chain answered, whatever
it was before and whether or not the query reported an error, the resync counter
is `0`, the channel holds the permit again, and no other field of the worker has
changed. -/
theorem updateContext_resync (sp : Spammer) (ch : Chan) (q : QueryResult)
    (hq : sp.queryFree = ChanRef.gate) (h1 : 0 < ch.buf) (h2 : ch.buf ≤ ch.cap) :
    ∃ sp1, sp.updateContext ch q = some (sp1, ch) ∧
      sp.updateContext ch { q with err := true } = some (sp1, ch) ∧
      sp.updateContext ch { q with err := false } = some (sp1, ch) ∧
      sp1.currentSequence = q.nextSequence ∧ sp1.sequenceCheck = 0 ∧
      sp1.accountName = sp.accountName ∧ sp1.password = sp.password ∧
      sp1.accountAddress = sp.accountAddress ∧ sp1.index = sp.index ∧
      sp1.priv = sp.priv ∧ sp1.ctx = sp.ctx ∧ sp1.randomCoins = sp.randomCoins ∧
      sp1.queryFree = sp.queryFree ∧ sp1.clpFrom = sp.clpFrom ∧ sp1.clpTo = sp.clpTo := by
  refine ⟨{ sp with currentSequence := q.nextSequence, sequenceCheck := 0 },
    updateContext_eq sp ch q hq h1 h2, ?_, ?_, rfl, rfl, rfl, rfl, rfl, rfl, rfl, rfl, rfl,
    rfl, rfl, rfl⟩
  · exact updateContext_eq sp ch { q with err := true } hq h1 h2
  · exact updateContext_eq sp ch { q with err := false } hq h1 h2

/-- C5 at the worker spawned for `spam-0`, with the fresh gate and a failing
query that answers `42`. -/
theorem updateContext_resync_witness :
    ∃ sp1, sampleSpammer.updateContext (Chan.mk 1 1) (QueryResult.mk 42 true)
        = some (sp1, Chan.mk 1 1) ∧
      sampleSpammer.updateContext (Chan.mk 1 1)
        { QueryResult.mk 42 true with err := true } = some (sp1, Chan.mk 1 1) ∧
      sampleSpammer.updateContext (Chan.mk 1 1)
        { QueryResult.mk 42 true with err := false } = some (sp1, Chan.mk 1 1) ∧
      sp1.currentSequence = (QueryResult.mk 42 true).nextSequence ∧ sp1.sequenceCheck = 0 ∧
      sp1.accountName = sampleSpammer.accountName ∧ sp1.password = sampleSpammer.password ∧
      sp1.accountAddress = sampleSpammer.accountAddress ∧ sp1.index = sampleSpammer.index ∧
      sp1.priv = sampleSpammer.priv ∧ sp1.ctx = sampleSpammer.ctx ∧
      sp1.randomCoins = sampleSpammer.randomCoins ∧
      sp1.queryFree = sampleSpammer.queryFree ∧ sp1.clpFrom = sampleSpammer.clpFrom ∧
      sp1.clpTo = sampleSpammer.clpTo :=
  updateContext_resync sampleSpammer (Chan.mk 1 1) (QueryResult.mk 42 true)
    (by decide) (by decide) (by decide)

/-- One iteration from a counter in `[0, 50000)`: when it resyncs, what it
records, and the counter it leaves. -/
theorem iteration_spec (sp next : Spammer) (ch : Chan) (inp : IterInput)
    (h0 : 0 ≤ sp.sequenceCheck) (h1 : sp.sequenceCheck < 50000) :
    ((sp.iteration next ch inp).1.resynced = true ↔
        (inp.submitErr = true ∨ (inp.submitErr = false ∧ sp.sequenceCheck + 1 = 50000)))
    ∧ (sp.iteration next ch inp).1.succeeded = !inp.submitErr
    ∧ (sp.iteration next ch inp).1.sequence = sp.currentSequence
    ∧ ∀ sp1 ch1, (sp.iteration next ch inp).2 = some (sp1, ch1) →
        0 ≤ sp1.sequenceCheck ∧ sp1.sequenceCheck < 50000 ∧
        sp1.sequenceCheck =
          (if (sp.iteration next ch inp).1.resynced then 0
           else if (sp.iteration next ch inp).1.succeeded then sp.sequenceCheck + 1
           else sp.sequenceCheck) := by
  have hw : wrapInt64 (sp.sequenceCheck + 1) = sp.sequenceCheck + 1 :=
    wrapInt64_of_range (by unfold minInt64; omega) (by unfold maxInt64; omega)
  unfold Spammer.iteration
  by_cases he : inp.submitErr = true
  · simp only [he, if_true]
    refine ⟨by simp, by simp, rfl, ?_⟩
    intro sp1 ch1 h
    have := updateContext_some _ _ _ _ _ h
    simp [this.1]
  · have he2 : inp.submitErr = false := by simpa using he
    simp only [he2, hw]
    by_cases ht : sp.sequenceCheck + 1 ≥ 50000
    · simp only [ht, if_true]
      refine ⟨by simp; omega, by simp, rfl, ?_⟩
      intro sp1 ch1 h
      have := updateContext_some _ _ _ _ _ h
      simp [this.1]
    · simp only [ht, if_false]
      refine ⟨by simp; omega, by simp, rfl, ?_⟩
      intro sp1 ch1 h
      simp only [Bool.false_eq_true, if_false, Option.some.injEq, Prod.mk.injEq] at h
      obtain ⟨h, _⟩ := h
      subst h
      simp
      omega

theorem start_nil (sp next : Spammer) (ch : Chan) :
    sp.start next ch [] = ([], some (sp, ch)) := rfl

theorem start_cons_none (sp next : Spammer) (ch : Chan) (inp : IterInput)
    (inputs : List IterInput) (h : (sp.iteration next ch inp).2 = none) :
    sp.start next ch (inp :: inputs) = ([(sp.iteration next ch inp).1], none) := by
  rw [Spammer.start]
  split
  next r heq => rw [heq]
  next r sp1 ch1 heq => rw [heq] at h; exact absurd h (by simp)

theorem start_cons_some (sp next sp1 : Spammer) (ch ch1 : Chan) (inp : IterInput)
    (inputs : List IterInput) (h : (sp.iteration next ch inp).2 = some (sp1, ch1)) :
    sp.start next ch (inp :: inputs)
      = ((sp.iteration next ch inp).1 :: (sp1.start next ch1 inputs).1,
          (sp1.start next ch1 inputs).2) := by
  rw [Spammer.start]
  split
  next r heq => rw [heq] at h; exact absurd h (by simp)
  next r sp2 ch2 heq =>
    rw [heq] at h
    simp only [Option.some.injEq, Prod.mk.injEq] at h
    obtain ⟨h1, h2⟩ := h
    subst h1
    subst h2
    rw [heq]

/-- The counter at the top of an iteration is the number of successes since the
last resync, counted from the counter the run began with. -/
theorem start_counter (next : Spammer) (inputs : List IterInput) :
    ∀ (sp : Spammer) (ch : Chan) (n : Nat) (records : List IterRecord) (sp1 : Spammer)
      (ch1 : Chan), sp.sequenceCheck = (n : Int) → n < 50000 →
      sp.start next ch inputs = (records, some (sp1, ch1)) →
      sp1.sequenceCheck < 50000 ∧
      sp1.sequenceCheck = ((records.foldl
        (fun n r => if r.resynced then 0 else if r.succeeded then n + 1 else n) n : Nat) : Int) := by
  induction inputs with
  | nil =>
    intro sp ch n records sp1 ch1 hn hlt h
    rw [start_nil] at h
    simp only [Prod.mk.injEq, Option.some.injEq] at h
    obtain ⟨h1, h2, _⟩ := h
    subst h1
    subst h2
    simp only [List.foldl_nil]
    exact ⟨by omega, hn⟩
  | cons inp rest ih =>
    intro sp ch n records sp1 ch1 hn hlt h
    cases hst : (sp.iteration next ch inp).2 with
    | none =>
      rw [start_cons_none sp next ch inp rest hst] at h
      simp at h
    | some st =>
      obtain ⟨sp2, ch2⟩ := st
      rw [start_cons_some sp next sp2 ch ch2 inp rest hst] at h
      simp only [Prod.mk.injEq] at h
      obtain ⟨h1, h2⟩ := h
      obtain ⟨_, _, _, hstep⟩ := iteration_spec sp next ch inp (by omega) (by omega)
      obtain ⟨a, b, c⟩ := hstep sp2 ch2 hst
      have hn2 : sp2.sequenceCheck =
          (((if (sp.iteration next ch inp).1.resynced then 0
            else if (sp.iteration next ch inp).1.succeeded then n + 1 else n) : Nat) : Int) := by
        rw [c, hn]
        split <;> [rfl; (split <;> simp)]
      have hlt2 : (if (sp.iteration next ch inp).1.resynced then 0
            else if (sp.iteration next ch inp).1.succeeded then n + 1 else n) < 50000 := by
        have := hn2 ▸ b
        omega
      have := ih sp2 ch2 _ (sp2.start next ch2 rest).1 sp1 ch1 hn2 hlt2
        (by rw [← h2])
      rw [← h1]
      simpa only [List.foldl_cons] using this

/-- With the pool's channel and a permit in it, an iteration returns and leaves
the channel as it found it. -/
theorem iteration_returns (sp next : Spammer) (ch : Chan) (inp : IterInput)
    (hq : sp.queryFree = ChanRef.gate) (h1 : 0 < ch.buf) (h2 : ch.buf ≤ ch.cap) :
    ∃ sp1, (sp.iteration next ch inp).2 = some (sp1, ch) ∧ sp1.queryFree = ChanRef.gate := by
  unfold Spammer.iteration
  by_cases he : inp.submitErr = true
  · simp only [he, if_true]
    exact ⟨_, updateContext_eq _ ch inp.query hq h1 h2, hq⟩
  · have he2 : inp.submitErr = false := by simpa using he
    simp only [he2, Bool.false_eq_true, if_false]
    by_cases ht : wrapInt64 (sp.sequenceCheck + 1) ≥ 50000
    · simp only [ht, if_true]
      exact ⟨_, updateContext_eq _ ch inp.query hq h1 h2, hq⟩
    · simp only [ht, if_false]
      exact ⟨_, rfl, hq⟩

/-- With the pool's channel and a permit in it, the loop never blocks. -/
theorem start_returns (next : Spammer) (ch : Chan) (inputs : List IterInput)
    (h1 : 0 < ch.buf) (h2 : ch.buf ≤ ch.cap) :
    ∀ sp : Spammer, sp.queryFree = ChanRef.gate →
      ∃ records sp1, sp.start next ch inputs = (records, some (sp1, ch))
        ∧ records.length = inputs.length := by
  induction inputs with
  | nil => exact fun sp _ => ⟨[], sp, rfl, rfl⟩
  | cons inp rest ih =>
    intro sp hq
    obtain ⟨sp2, hst, hq2⟩ := iteration_returns sp next ch inp hq h1 h2
    obtain ⟨records, sp1, hrun, hlen⟩ := ih sp2 hq2
    refine ⟨(sp.iteration next ch inp).1 :: records, sp1, ?_, by simp [hlen]⟩
    rw [start_cons_some sp next sp2 ch ch inp rest hst, hrun]

/-- C3: in a run of the loop that begins with resync counter `0`, the counter at
the top of every iteration is in `[0, 50000)` and equals the number of
successful submissions since the last resync; the iteration calls
`updateContext` exactly when its submission fails, or succeeds as the 50,000th
success since the last resync. With the pool's channel and a free permit the run
reaches every iteration. -/
theorem start_resync_iff (sp next : Spammer) (ch : Chan) (pre : List IterInput)
    (inp : IterInput) (h0 : sp.sequenceCheck = 0) :
    (∀ records sp1 ch1, sp.start next ch pre = (records, some (sp1, ch1)) →
      0 ≤ sp1.sequenceCheck ∧ sp1.sequenceCheck < 50000 ∧
      sp1.sequenceCheck = (successesSinceResync records : Int) ∧
      ((sp1.iteration next ch1 inp).1.resynced = true ↔
        (inp.submitErr = true ∨
          (inp.submitErr = false ∧ successesSinceResync records + 1 = 50000))))
    ∧ (sp.queryFree = ChanRef.gate → 0 < ch.buf → ch.buf ≤ ch.cap →
        ∃ records sp1, sp.start next ch pre = (records, some (sp1, ch))
          ∧ records.length = pre.length) := by
  refine ⟨?_, fun hq h1 h2 => start_returns next ch pre h1 h2 sp hq⟩
  intro records sp1 ch1 hrun
  obtain ⟨hlt, heq⟩ := start_counter next pre sp ch 0 records sp1 ch1 (by simpa using h0)
    (by decide) hrun
  have heq2 : sp1.sequenceCheck = (successesSinceResync records : Int) := heq
  have hnn : 0 ≤ sp1.sequenceCheck := by rw [heq2]; exact Int.natCast_nonneg _
  obtain ⟨hiff, _⟩ := iteration_spec sp1 next ch1 inp hnn hlt
  refine ⟨hnn, hlt, heq2, ?_⟩
  rw [hiff, heq2]
  constructor
  · rintro (h | ⟨h, h3⟩)
    · exact Or.inl h
    · exact Or.inr ⟨h, by omega⟩
  · rintro (h | ⟨h, h3⟩)
    · exact Or.inl h
    · exact Or.inr ⟨h, by omega⟩

/-- C3 at the worker spawned for `spam-0` (sequence `5`): after a successful
trade, a failed transfer whose resync answers `9`, and a successful transfer, the
counter is `1` and a next successful submission does not resync. -/
theorem start_resync_iff_witness :
    sampleSpammer.start sampleSpammer (Chan.mk 1 1)
        [IterInput.mk true false (QueryResult.mk 0 false),
         IterInput.mk false true (QueryResult.mk 9 false),
         IterInput.mk false false (QueryResult.mk 0 false)]
      = ([IterRecord.mk 5 (Msg.trade [1] "RUNE" "ETH" 1) true false,
          IterRecord.mk 6 (Msg.send [1] [1] [Coin.mk "RUNE" 1]) false true,
          IterRecord.mk 9 (Msg.send [1] [1] [Coin.mk "RUNE" 1]) true false],
         some (sampleSpammerLater, Chan.mk 1 1))
    ∧ (0 ≤ sampleSpammerLater.sequenceCheck ∧ sampleSpammerLater.sequenceCheck < 50000 ∧
      sampleSpammerLater.sequenceCheck = (successesSinceResync
        [IterRecord.mk 5 (Msg.trade [1] "RUNE" "ETH" 1) true false,
         IterRecord.mk 6 (Msg.send [1] [1] [Coin.mk "RUNE" 1]) false true,
         IterRecord.mk 9 (Msg.send [1] [1] [Coin.mk "RUNE" 1]) true false] : Int) ∧
      ((sampleSpammerLater.iteration sampleSpammer (Chan.mk 1 1)
          (IterInput.mk false false (QueryResult.mk 0 false))).1.resynced = true ↔
        ((IterInput.mk false false (QueryResult.mk 0 false)).submitErr = true ∨
          ((IterInput.mk false false (QueryResult.mk 0 false)).submitErr = false ∧
            successesSinceResync
              [IterRecord.mk 5 (Msg.trade [1] "RUNE" "ETH" 1) true false,
               IterRecord.mk 6 (Msg.send [1] [1] [Coin.mk "RUNE" 1]) false true,
               IterRecord.mk 9 (Msg.send [1] [1] [Coin.mk "RUNE" 1]) true false] + 1
              = 50000)))) :=
  ⟨by decide,
   (start_resync_iff sampleSpammer sampleSpammer (Chan.mk 1 1)
      [IterInput.mk true false (QueryResult.mk 0 false),
       IterInput.mk false true (QueryResult.mk 9 false),
       IterInput.mk false false (QueryResult.mk 0 false)]
      (IterInput.mk false false (QueryResult.mk 0 false)) (by decide)).1
      [IterRecord.mk 5 (Msg.trade [1] "RUNE" "ETH" 1) true false,
       IterRecord.mk 6 (Msg.send [1] [1] [Coin.mk "RUNE" 1]) false true,
       IterRecord.mk 9 (Msg.send [1] [1] [Coin.mk "RUNE" 1]) true false]
      sampleSpammerLater (Chan.mk 1 1) (by decide)⟩

/-- The threshold branch at work: the success that takes the counter from
`49999` to `50000` resyncs, and the counter is `0` afterwards. -/
theorem iteration_at_threshold :
    (Spammer.iteration { sampleSpammer with sequenceCheck := 49999 } sampleSpammer
        (Chan.mk 1 1) (IterInput.mk false false (QueryResult.mk 77 false)))
      = ({ sequence := 5, msg := Msg.send [1] [1] [Coin.mk "RUNE" 1], succeeded := true,
           resynced := true },
         some ({ sampleSpammer with currentSequence := 77, sequenceCheck := 0,
                                    ctx := CoreContext.mk "thorchain" [1] 5 },
               Chan.mk 1 1)) := by
  decide

/-- A successful iteration that does not resync: the record carries the
sequence the worker had, and both counters are advanced (in `int64`). -/
theorem iteration_success (sp next : Spammer) (ch : Chan) (inp : IterInput)
    (hok : inp.submitErr = false) (hno : (sp.iteration next ch inp).1.resynced = false) :
    (sp.iteration next ch inp).1.sequence = sp.currentSequence ∧
    (sp.iteration next ch inp).1.succeeded = true ∧
    wrapInt64 (sp.sequenceCheck + 1) < 50000 ∧
    ∃ sp1, (sp.iteration next ch inp).2 = some (sp1, ch) ∧
      sp1.currentSequence = wrapInt64 (sp.currentSequence + 1) ∧
      sp1.sequenceCheck = wrapInt64 (sp.sequenceCheck + 1) := by
  unfold Spammer.iteration at hno ⊢
  simp only [hok, Bool.false_eq_true, if_false] at hno ⊢
  by_cases ht : wrapInt64 (sp.sequenceCheck + 1) ≥ 50000
  · simp only [ht, if_true] at hno
    exact absurd hno (by simp)
  · rw [if_neg ht]
    exact ⟨rfl, rfl, by omega, _, rfl, rfl, rfl⟩

/-- C4, amended: in a run of `k` iterations whose submissions all succeed and
none of which resyncs, from a worker whose sequence and resync counter are
`int64` values that stay at most `2^63 - 1` when `k` is added, the loop reaches
the end of the `k` iterations with local sequence `start + k` and resync counter
`start + k`; the transactions were submitted with the sequences `start`,
`start + 1`, ..., `start + k - 1`, in this order. -/
theorem start_sequence_advances (next : Spammer) (ch : Chan) (inputs : List IterInput) :
    ∀ sp : Spammer,
      minInt64 ≤ sp.currentSequence → sp.currentSequence + inputs.length ≤ maxInt64 →
      minInt64 ≤ sp.sequenceCheck → sp.sequenceCheck + inputs.length ≤ maxInt64 →
      (∀ inp ∈ inputs, inp.submitErr = false) →
      (∀ r ∈ (sp.start next ch inputs).1, r.resynced = false) →
      ∃ sp1, (sp.start next ch inputs).2 = some (sp1, ch) ∧
        sp1.currentSequence = sp.currentSequence + inputs.length ∧
        sp1.sequenceCheck = sp.sequenceCheck + inputs.length ∧
        (sp.start next ch inputs).1.map (fun r => r.sequence)
          = (List.range inputs.length).map (fun (i : Nat) => sp.currentSequence + (i : Int)) ∧
        (∀ r ∈ (sp.start next ch inputs).1, r.succeeded = true) := by
  induction inputs with
  | nil =>
    intro sp _ _ _ _ _ _
    exact ⟨sp, rfl, by simp, by simp, by simp [start_nil], by simp [start_nil]⟩
  | cons inp rest ih =>
    intro sp hs1 hs2 hc1 hc2 hok hno
    simp only [List.length_cons, Nat.cast_add, Nat.cast_one] at hs2 hc2
    have hlen : (0 : Int) ≤ (rest.length : Int) := Int.natCast_nonneg _
    have hok1 : inp.submitErr = false := hok inp (List.mem_cons_self _ _)
    have hno1 : (sp.iteration next ch inp).1.resynced = false := by
      apply hno
      cases hst : (sp.iteration next ch inp).2 with
      | none => rw [start_cons_none sp next ch inp rest hst]; simp
      | some st =>
        obtain ⟨sp2, ch2⟩ := st
        rw [start_cons_some sp next sp2 ch ch2 inp rest hst]
        simp
    obtain ⟨hseq, hsucc, _, sp2, hst, hcs, hcc⟩ := iteration_success sp next ch inp hok1 hno1
    rw [wrapInt64_of_range (by omega) (by omega)] at hcs
    rw [wrapInt64_of_range (by omega) (by omega)] at hcc
    have hrun := start_cons_some sp next sp2 ch ch inp rest hst
    rw [hrun] at hno
    obtain ⟨sp1, h2, h3, h4, h5, h6⟩ := ih sp2 (by omega) (by omega) (by omega) (by omega)
      (fun x hx => hok x (List.mem_cons_of_mem _ hx))
      (fun r hr => hno r (List.mem_cons_of_mem _ hr))
    refine ⟨sp1, by rw [hrun]; exact h2, ?_, ?_, ?_, ?_⟩
    · simp only [List.length_cons, Nat.cast_add, Nat.cast_one]; omega
    · simp only [List.length_cons, Nat.cast_add, Nat.cast_one]; omega
    · rw [hrun]
      simp only [List.map_cons, List.length_cons, List.range_succ_eq_map, hseq, h5, hcs,
        List.map_map]
      simp only [Nat.cast_zero, add_zero, List.cons.injEq, true_and]
      apply List.map_congr_left
      intro i _
      simp only [Function.comp_apply, Nat.cast_succ]
      omega
    · rw [hrun]
      intro r hr
      rcases List.mem_cons.mp hr with h | h
      · rw [h]; exact hsucc
      · exact h6 r h

/-- C4, amended, at the worker spawned for `spam-0` (sequence `5`) over two
successful submissions. -/
theorem start_sequence_advances_witness :
    ∃ sp1, (sampleSpammer.start sampleSpammer (Chan.mk 1 1)
        [IterInput.mk true false (QueryResult.mk 0 false),
         IterInput.mk false false (QueryResult.mk 0 false)]).2 = some (sp1, Chan.mk 1 1) ∧
      sp1.currentSequence = sampleSpammer.currentSequence +
        ([IterInput.mk true false (QueryResult.mk 0 false),
          IterInput.mk false false (QueryResult.mk 0 false)].length : Nat) ∧
      sp1.sequenceCheck = sampleSpammer.sequenceCheck +
        ([IterInput.mk true false (QueryResult.mk 0 false),
          IterInput.mk false false (QueryResult.mk 0 false)].length : Nat) ∧
      (sampleSpammer.start sampleSpammer (Chan.mk 1 1)
        [IterInput.mk true false (QueryResult.mk 0 false),
         IterInput.mk false false (QueryResult.mk 0 false)]).1.map (fun r => r.sequence)
        = (List.range [IterInput.mk true false (QueryResult.mk 0 false),
            IterInput.mk false false (QueryResult.mk 0 false)].length).map
            (fun (i : Nat) => sampleSpammer.currentSequence + (i : Int)) ∧
      (∀ r ∈ (sampleSpammer.start sampleSpammer (Chan.mk 1 1)
        [IterInput.mk true false (QueryResult.mk 0 false),
         IterInput.mk false false (QueryResult.mk 0 false)]).1, r.succeeded = true) :=
  start_sequence_advances sampleSpammer (Chan.mk 1 1)
    [IterInput.mk true false (QueryResult.mk 0 false),
     IterInput.mk false false (QueryResult.mk 0 false)] sampleSpammer
    (by decide) (by decide) (by decide) (by decide) (by decide) (by decide)

/-- C4 as stated fails where the `int64` addition wraps. A worker whose sequence
is `2^63 - 1` (counter `0`) makes one successful submission without reaching the
threshold, and its sequence is then `-2^63`, not the starting value plus one.
Likewise a counter of `2^63 - 1` wraps to `-2^63`, below the threshold. -/
theorem start_sequence_wraps :
    ((Spammer.start { sampleSpammer with currentSequence := maxInt64 } sampleSpammer
          (Chan.mk 1 1) [IterInput.mk false false (QueryResult.mk 0 false)]).1.map
        (fun r => (r.sequence, r.succeeded, r.resynced)) = [(maxInt64, true, false)]
      ∧ (Spammer.start { sampleSpammer with currentSequence := maxInt64 } sampleSpammer
          (Chan.mk 1 1) [IterInput.mk false false (QueryResult.mk 0 false)]).2.map
        (fun st => (st.1.currentSequence, st.1.sequenceCheck)) = some (minInt64, 1)
      ∧ minInt64 ≠ maxInt64 + 1)
    ∧ ((Spammer.start { sampleSpammer with sequenceCheck := maxInt64 } sampleSpammer
          (Chan.mk 1 1) [IterInput.mk false false (QueryResult.mk 0 false)]).1.map
        (fun r => (r.sequence, r.succeeded, r.resynced)) = [(5, true, false)]
      ∧ (Spammer.start { sampleSpammer with sequenceCheck := maxInt64 } sampleSpammer
          (Chan.mk 1 1) [IterInput.mk false false (QueryResult.mk 0 false)]).2.map
        (fun st => (st.1.currentSequence, st.1.sequenceCheck)) = some (6, minInt64)
      ∧ minInt64 ≠ maxInt64 + 1) := by
  decide

/-! ## The ticker pair of the trade messages -/

/-- An iteration leaves the ticker pair as it was. -/
theorem iteration_tickers (sp next sp1 : Spammer) (ch ch1 : Chan) (inp : IterInput)
    (h : (sp.iteration next ch inp).2 = some (sp1, ch1)) :
    sp1.clpFrom = sp.clpFrom ∧ sp1.clpTo = sp.clpTo := by
  unfold Spammer.iteration at h
  by_cases he : inp.submitErr = true
  · simp only [he, if_true] at h
    have := updateContext_some _ _ _ _ _ h
    exact ⟨this.2.2.1, this.2.2.2⟩
  · have he2 : inp.submitErr = false := by simpa using he
    simp only [he2, Bool.false_eq_true, if_false] at h
    by_cases ht : wrapInt64 (sp.sequenceCheck + 1) ≥ 50000
    · simp only [ht, if_true] at h
      have := updateContext_some _ _ _ _ _ h
      exact ⟨this.2.2.1, this.2.2.2⟩
    · simp only [ht, if_false, Option.some.injEq, Prod.mk.injEq] at h
      obtain ⟨h, _⟩ := h
      subst h
      exact ⟨rfl, rfl⟩

/-- The trade message of an iteration carries the worker's ticker pair. -/
theorem iteration_msg (sp next : Spammer) (ch : Chan) (inp : IterInput) :
    (sp.iteration next ch inp).1.msg =
      (if inp.clpMsg then Msg.trade sp.accountAddress sp.clpFrom sp.clpTo 1
       else Msg.send sp.accountAddress next.accountAddress sp.randomCoins) := by
  unfold Spammer.iteration
  by_cases he : inp.submitErr = true
  · simp only [he, if_true]
  · have he2 : inp.submitErr = false := by simpa using he
    simp only [he2, Bool.false_eq_true, if_false]
    by_cases ht : wrapInt64 (sp.sequenceCheck + 1) ≥ 50000
    · simp only [ht, if_true]
    · simp only [ht, if_false]

/-- Every trade message a worker builds carries the ticker pair the worker
started with: the loop never swaps the pair. -/
theorem start_tradePairs (next : Spammer) (inputs : List IterInput) :
    ∀ (sp : Spammer) (ch : Chan), ∀ p ∈ tradePairs (sp.start next ch inputs).1,
      p = (sp.clpFrom, sp.clpTo) := by
  induction inputs with
  | nil => intro sp ch p hp; simp [start_nil, tradePairs] at hp
  | cons inp rest ih =>
    intro sp ch p hp
    have hm := iteration_msg sp next ch inp
    cases hst : (sp.iteration next ch inp).2 with
    | none =>
      rw [start_cons_none sp next ch inp rest hst] at hp
      cases hc : inp.clpMsg <;> simp [tradePairs, hm, hc] at hp
      exact hp
    | some st =>
      obtain ⟨sp2, ch2⟩ := st
      rw [start_cons_some sp next sp2 ch ch2 inp rest hst] at hp
      obtain ⟨t1, t2⟩ := iteration_tickers sp next sp2 ch ch2 inp hst
      have hrest := ih sp2 ch2 p
      rw [t1, t2] at hrest
      cases hc : inp.clpMsg <;> simp [tradePairs, hm, hc] at hp
      · exact hrest hp
      · rcases hp with hp | hp
        · exact hp
        · exact hrest hp

/-- C9 fails on the code: the worker spawned for `spam-0` builds two trade
messages in a row, and both carry `(RUNE, ETH)`; the second is not
`(ETH, RUNE)`. The method `flipCLPTickers` would swap the pair, but the loop does
not call it. -/
theorem start_trades_not_alternating :
    tradePairs (sampleSpammer.start sampleSpammer (Chan.mk 1 1)
        [IterInput.mk true false (QueryResult.mk 0 false),
         IterInput.mk true false (QueryResult.mk 0 false)]).1
      = [("RUNE", "ETH"), ("RUNE", "ETH")]
    ∧ (sampleSpammer.flipCLPTickers.clpFrom, sampleSpammer.flipCLPTickers.clpTo)
      = ("ETH", "RUNE") := by
  decide

/-! ## Facts about start-up -/

theorem spawnedInfos_append (a b : List Event) :
    spawnedInfos (a ++ b) = spawnedInfos a ++ spawnedInfos b := by
  induction a with
  | nil => rfl
  | cons e rest ih => cases e <;> simp [spawnedInfos, ih]

theorem startedWorkers_append (a b : List Event) :
    startedWorkers (a ++ b) = startedWorkers a ++ startedWorkers b := by
  induction a with
  | nil => rfl
  | cons e rest ih => cases e <;> simp [startedWorkers, ih]

/-- The loop of `createSpammers` calls `SpawnSpammer` for the matching
identities it reaches, in keystore order, and starts no worker. -/
theorem createSpammersLoop_events (env : Env) (spamPrefix spamPassword chainID : String)
    (infos : List Info) :
    ∀ (acc : List Spammer) (j : Int),
      (spawnedInfos (createSpammersLoop env spamPrefix spamPassword chainID infos acc j).1
        <+: infos.filter (fun info => HasPrefix info.name spamPrefix)) ∧
      startedWorkers (createSpammersLoop env spamPrefix spamPassword chainID infos acc j).1 = []
      ∧ keystoreCalls (createSpammersLoop env spamPrefix spamPassword chainID infos acc j).1
          = 0 := by
  induction infos with
  | nil => intro acc j; simp [createSpammersLoop, spawnedInfos, startedWorkers, keystoreCalls]
  | cons info rest ih =>
    intro acc j
    unfold createSpammersLoop
    by_cases hp : HasPrefix info.name spamPrefix = true
    · simp only [hp, if_true, List.filter_cons_of_pos]
      cases hs : SpawnSpammer env info.name spamPassword j info chainID ChanRef.gate with
      | none =>
        simp only [spawnedInfos, startedWorkers, keystoreCalls]
        exact ⟨by simp [List.prefix_cons_inj, List.nil_prefix], trivial, trivial⟩
      | some sp =>
        obtain ⟨h1, h2, h3⟩ := ih (acc ++ [sp]) (wrapInt64 (j + 1))
        simp only [spawnedInfos, startedWorkers, keystoreCalls]
        exact ⟨by simpa [List.prefix_cons_inj] using h1, h2, h3⟩
    · have hp2 : HasPrefix info.name spamPrefix = false := by simpa using hp
      simp only [hp2, Bool.false_eq_true, if_false]
      rw [List.filter_cons_of_neg (by simp [hp2])]
      exact ih acc j

/-- When the loop of `createSpammers` ends, the pool is the pool it began with
followed by one entry per matching identity, each the result of the spawn of
that identity. -/
theorem createSpammersLoop_pool (env : Env) (spamPrefix spamPassword chainID : String)
    (infos : List Info) :
    ∀ (acc : List Spammer) (j : Int) (evs : List Event) (pool : List Spammer),
      createSpammersLoop env spamPrefix spamPassword chainID infos acc j = (evs, some pool) →
      spawnedInfos evs = infos.filter (fun info => HasPrefix info.name spamPrefix) ∧
      ∃ added, pool = acc ++ added ∧
        List.Forall₂ (fun (sp : Spammer) (info : Info) =>
          ∃ k, SpawnSpammer env info.name spamPassword k info chainID ChanRef.gate = some sp)
          added (infos.filter (fun info => HasPrefix info.name spamPrefix)) := by
  induction infos with
  | nil =>
    intro acc j evs pool h
    simp only [createSpammersLoop, Prod.mk.injEq, Option.some.injEq] at h
    obtain ⟨h1, h2⟩ := h
    subst h1
    subst h2
    exact ⟨rfl, [], by simp, List.Forall₂.nil⟩
  | cons info rest ih =>
    intro acc j evs pool h
    unfold createSpammersLoop at h
    by_cases hp : HasPrefix info.name spamPrefix = true
    · simp only [hp, if_true] at h
      rw [List.filter_cons_of_pos (by simpa using hp)]
      cases hs : SpawnSpammer env info.name spamPassword j info chainID ChanRef.gate with
      | none => rw [hs] at h; simp at h
      | some sp =>
        rw [hs] at h
        simp only [Prod.mk.injEq] at h
        obtain ⟨h1, h2⟩ := h
        obtain ⟨a, added, b, c⟩ := ih (acc ++ [sp]) (wrapInt64 (j + 1)) _ pool
          (Prod.ext rfl h2)
        subst h1
        refine ⟨by simp [spawnedInfos, a], sp :: added, by simp [b], ?_⟩
        exact List.Forall₂.cons ⟨j, hs⟩ c
    · have hp2 : HasPrefix info.name spamPrefix = false := by simpa using hp
      simp only [hp2, Bool.false_eq_true, if_false] at h
      rw [List.filter_cons_of_neg (by simp [hp2])]
      exact ih acc j evs pool h

/-- When no spawn panics the loop of `createSpammers` ends with a pool. -/
theorem createSpammersLoop_returns (env : Env) (spamPrefix spamPassword chainID : String)
    (infos : List Info)
    (hs : ∀ info ∈ infos, ∀ k,
      SpawnSpammer env info.name spamPassword k info chainID ChanRef.gate ≠ none) :
    ∀ (acc : List Spammer) (j : Int),
      ∃ pool, (createSpammersLoop env spamPrefix spamPassword chainID infos acc j).2
        = some pool := by
  induction infos with
  | nil => intro acc j; exact ⟨acc, rfl⟩
  | cons info rest ih =>
    intro acc j
    unfold createSpammersLoop
    by_cases hp : HasPrefix info.name spamPrefix = true
    · simp only [hp, if_true]
      cases hsp : SpawnSpammer env info.name spamPassword j info chainID ChanRef.gate with
      | none => exact absurd hsp (hs info (List.mem_cons_self _ _) j)
      | some sp =>
        exact ih (fun x hx => hs x (List.mem_cons_of_mem _ hx)) (acc ++ [sp]) _
    · have hp2 : HasPrefix info.name spamPrefix = false := by simpa using hp
      simp only [hp2, Bool.false_eq_true, if_false]
      exact ih (fun x hx => hs x (List.mem_cons_of_mem _ hx)) acc j

/-- The events of `createSpammers`: spawn calls for matching identities only,
and no worker started. -/
theorem createSpammers_events (env : Env) (spamPrefix spamPassword chainID : String) :
    (∀ info ∈ spawnedInfos (createSpammers env spamPrefix spamPassword chainID).1,
      HasPrefix info.name spamPrefix = true ∧ ∃ infos, env.list = Except.ok infos ∧ info ∈ infos)
    ∧ startedWorkers (createSpammers env spamPrefix spamPassword chainID).1 = [] := by
  unfold createSpammers
  cases env.getKeyBase with
  | error e => simp [spawnedInfos, startedWorkers]
  | ok u =>
    cases hl : env.list with
    | error e => simp [spawnedInfos, startedWorkers]
    | ok infos =>
      have hsend : (Chan.make 1).send = some (Chan.mk 1 1) := rfl
      obtain ⟨h1, h2, _⟩ :=
        createSpammersLoop_events env spamPrefix spamPassword chainID infos [] 0
      simp only [hsend]
      cases hloop : createSpammersLoop env spamPrefix spamPassword chainID infos [] 0 with
      | mk evs r =>
        rw [hloop] at h1 h2
        have hmem : ∀ info ∈ spawnedInfos evs,
            HasPrefix info.name spamPrefix = true ∧ info ∈ infos := by
          intro info hi
          have := List.mem_filter.mp (h1.subset hi)
          exact ⟨by simpa using this.2, this.1⟩
        cases r <;> simpa [spawnedInfos, startedWorkers] using ⟨hmem, h2⟩

/-- C8: `createSpammers` calls `SpawnSpammer` only for identities of the keystore
listing whose name starts with the prefix, whatever the outcome; when it returns
a pool, the spawn calls were exactly the matching identities in keystore order,
the pool has one entry per matching identity in that order, each entry being
what the spawn of that identity returned, so the pool is no longer than the list
of matching identities. It returns a pool whenever the keystore answers and no
spawn panics. -/
theorem createSpammers_only_matching (env : Env) (spamPrefix spamPassword chainID : String) :
    (∀ info ∈ spawnedInfos (createSpammers env spamPrefix spamPassword chainID).1,
      HasPrefix info.name spamPrefix = true)
    ∧ (∀ evs pool ch,
        createSpammers env spamPrefix spamPassword chainID = (evs, Res.ok (pool, ch)) →
        ∃ infos, env.list = Except.ok infos ∧
          spawnedInfos evs = infos.filter (fun info => HasPrefix info.name spamPrefix) ∧
          List.Forall₂ (fun (sp : Spammer) (info : Info) =>
            ∃ k, SpawnSpammer env info.name spamPassword k info chainID ChanRef.gate = some sp)
            pool (infos.filter (fun info => HasPrefix info.name spamPrefix)) ∧
          pool.length ≤ (infos.filter (fun info => HasPrefix info.name spamPrefix)).length)
    ∧ (∀ infos, env.getKeyBase = Except.ok () → env.list = Except.ok infos →
        (∀ info ∈ infos, ∀ k,
          SpawnSpammer env info.name spamPassword k info chainID ChanRef.gate ≠ none) →
        ∃ evs pool, createSpammers env spamPrefix spamPassword chainID
          = (evs, Res.ok (pool, Chan.mk 1 1))) := by
  refine ⟨fun info hi => ((createSpammers_events env spamPrefix spamPassword chainID).1
    info hi).1, ?_, ?_⟩
  · intro evs pool ch h
    unfold createSpammers at h
    cases hk : env.getKeyBase with
    | error e => rw [hk] at h; simp at h
    | ok u =>
      rw [hk] at h
      cases hl : env.list with
      | error e => rw [hl] at h; simp at h
      | ok infos =>
        rw [hl] at h
        have hsend : (Chan.make 1).send = some (Chan.mk 1 1) := rfl
        simp only [hsend] at h
        cases hloop : createSpammersLoop env spamPrefix spamPassword chainID infos [] 0 with
        | mk evs1 r =>
          rw [hloop] at h
          cases r with
          | none => simp at h
          | some pool1 =>
            simp only [Prod.mk.injEq, Res.ok.injEq] at h
            obtain ⟨h1, h2, _⟩ := h
            obtain ⟨a, added, b, c⟩ :=
              createSpammersLoop_pool env spamPrefix spamPassword chainID infos [] 0 evs1 pool1
                hloop
            simp only [List.nil_append] at b
            subst b
            subst h2
            subst h1
            exact ⟨infos, rfl, by simpa [spawnedInfos] using a, c, le_of_eq c.length_eq⟩
  · intro infos hk hl hs
    obtain ⟨pool, hp⟩ :=
      createSpammersLoop_returns env spamPrefix spamPassword chainID infos hs [] 0
    have hsend : (Chan.make 1).send = some (Chan.mk 1 1) := rfl
    unfold createSpammers
    rw [hk, hl]
    simp only [hsend]
    cases hloop : createSpammersLoop env spamPrefix spamPassword chainID infos [] 0 with
    | mk evs1 r =>
      rw [hloop] at hp
      simp only at hp
      subst hp
      exact ⟨_, _, rfl⟩

/-- C8 at the sample keystore (`spam-0`, `other`, `spam-1`) with prefix `spam`. -/
theorem createSpammers_only_matching_witness :
    (spawnedInfos (createSpammers sampleEnv "spam" "secret" "thorchain").1
        = [Info.mk "spam-0" [1], Info.mk "spam-1" [3]])
    ∧ (∀ info ∈ spawnedInfos (createSpammers sampleEnv "spam" "secret" "thorchain").1,
        HasPrefix info.name "spam" = true)
    ∧ (∃ infos, sampleEnv.list = Except.ok infos ∧
        spawnedInfos [Event.keyBase, Event.listed, Event.spawn (Info.mk "spam-0" [1]) 0,
            Event.spawn (Info.mk "spam-1" [3]) 1]
          = infos.filter (fun info => HasPrefix info.name "spam") ∧
        List.Forall₂ (fun (sp : Spammer) (info : Info) =>
          ∃ k, SpawnSpammer sampleEnv info.name "secret" k info "thorchain" ChanRef.gate
            = some sp)
          [sampleSpammer, Spammer.zero] (infos.filter (fun info => HasPrefix info.name "spam")) ∧
        [sampleSpammer, Spammer.zero].length
          ≤ (infos.filter (fun info => HasPrefix info.name "spam")).length) :=
  ⟨by decide,
   (createSpammers_only_matching sampleEnv "spam" "secret" "thorchain").1,
   (createSpammers_only_matching sampleEnv "spam" "secret" "thorchain").2.1
     [Event.keyBase, Event.listed, Event.spawn (Info.mk "spam-0" [1]) 0,
       Event.spawn (Info.mk "spam-1" [3]) 1]
     [sampleSpammer, Spammer.zero] (Chan.mk 1 1) (by decide)⟩

/-- The start loop from index `i` with `r` iterations left, `i + r` being the
size of the pool: every index is in range, and the `k`-th worker started is
`pool[i + k]` with counterparty `pool[(i + k + 1) % N]`. -/
theorem startWorkers_spec (pool : List Spammer) (r : Nat) :
    ∀ i, i + r = pool.length →
      ∃ evs, startWorkers pool i r = some evs ∧ evs.length = r ∧
        (startedWorkers evs).length = r ∧ spawnedInfos evs = [] ∧ keystoreCalls evs = 0 ∧
        ∀ k, k < r → ∃ w nx, pool[i + k]? = some w ∧
          pool[(i + k + 1) % pool.length]? = some nx ∧
          evs[k]? = some (Event.started (i + k) w nx) := by
  induction r with
  | zero =>
    intro i _
    exact ⟨[], rfl, rfl, rfl, rfl, rfl, fun k hk => absurd hk (Nat.not_lt_zero k)⟩
  | succ r ih =>
    intro i hi
    have hlt : i < pool.length := by omega
    have hmod : (i + 1) % pool.length < pool.length := Nat.mod_lt _ (by omega)
    obtain ⟨evs, h1, h2, h3, h4, h5, h6⟩ := ih (i + 1) (by omega)
    refine ⟨Event.started i pool[i] pool[(i + 1) % pool.length] :: evs, ?_, by simp [h2],
      by simp [startedWorkers, h3], by simp [spawnedInfos, h4], by simp [keystoreCalls, h5], ?_⟩
    · rw [startWorkers, List.getElem?_eq_getElem hmod, List.getElem?_eq_getElem hlt]
      simp only [h1]
    · intro k hk
      cases k with
      | zero =>
        exact ⟨pool[i], pool[(i + 1) % pool.length], by simp [List.getElem?_eq_getElem hlt],
          by simp [List.getElem?_eq_getElem hmod], by simp⟩
      | succ k =>
        obtain ⟨w, nx, a, b, c⟩ := h6 k (by omega)
        have e1 : i + (k + 1) = i + 1 + k := by omega
        refine ⟨w, nx, by rw [e1]; exact a, by rw [e1]; exact b, ?_⟩
        rw [e1]
        simpa using c

/-- C10: for a pool of `N >= 1` entries the start loop runs to its end without
an index out of range and starts exactly `N` workers; the `i`-th worker started
is `pool[i]`, with `pool[(i + 1) % N]` as its counterparty, and `(i + 1) % N < N`.
A pool of one entry starts that entry with itself as counterparty. When
`createSpammers` returns this pool and the chain id and password are set,
`GetTxsSend` starts exactly these workers, after the events of
`createSpammers`. -/
theorem startWorkers_ring (pool : List Spammer) (hN : 1 ≤ pool.length) :
    ∃ evs, startWorkers pool 0 pool.length = some evs ∧
      (startedWorkers evs).length = pool.length ∧ evs.length = pool.length ∧
      (∀ i, i < pool.length → (i + 1) % pool.length < pool.length ∧
        ∃ w nx, pool[i]? = some w ∧ pool[(i + 1) % pool.length]? = some nx ∧
          evs[i]? = some (Event.started i w nx)) ∧
      (∀ w, pool = [w] → evs = [Event.started 0 w w]) ∧
      (∀ (env : Env) (flags : Flags) (evs0 : List Event) (ch : Chan),
        flags.chainID ≠ "" → flags.spamPassword ≠ "" →
        createSpammers env flags.spamPrefix flags.spamPassword flags.chainID
          = (evs0, Res.ok (pool, ch)) →
        GetTxsSend env flags = (evs0 ++ evs, Outcome.running)) := by
  obtain ⟨evs, h1, h2, h3, _, _, h6⟩ := startWorkers_spec pool pool.length 0 (by omega)
  refine ⟨evs, h1, h3, h2, ?_, ?_, ?_⟩
  · intro i hi
    obtain ⟨w, nx, a, b, c⟩ := h6 i hi
    simp only [Nat.zero_add] at a b c
    exact ⟨Nat.mod_lt _ (by omega), w, nx, a, b, c⟩
  · intro w hw
    subst hw
    simp only [startWorkers, List.length_singleton] at h1
    simp at h1
    exact h1.symm
  · intro env flags evs0 ch hc hp hcs
    have hlen : ¬ pool.length = 0 := by omega
    unfold GetTxsSend
    rw [if_neg hc, if_neg hp, hcs]
    simp only [hlen, if_false, h1]

/-- C10 at the pool `createSpammers` builds from the sample keystore. -/
theorem startWorkers_ring_witness :
    ∃ evs, startWorkers [sampleSpammer, Spammer.zero] 0 [sampleSpammer, Spammer.zero].length
        = some evs ∧
      (startedWorkers evs).length = [sampleSpammer, Spammer.zero].length ∧
      evs.length = [sampleSpammer, Spammer.zero].length ∧
      (∀ i, i < [sampleSpammer, Spammer.zero].length →
        (i + 1) % [sampleSpammer, Spammer.zero].length < [sampleSpammer, Spammer.zero].length ∧
        ∃ w nx, [sampleSpammer, Spammer.zero][i]? = some w ∧
          [sampleSpammer, Spammer.zero][(i + 1) % [sampleSpammer, Spammer.zero].length]?
            = some nx ∧
          evs[i]? = some (Event.started i w nx)) ∧
      (∀ w, [sampleSpammer, Spammer.zero] = [w] → evs = [Event.started 0 w w]) ∧
      (∀ (env : Env) (flags : Flags) (evs0 : List Event) (ch : Chan),
        flags.chainID ≠ "" → flags.spamPassword ≠ "" →
        createSpammers env flags.spamPrefix flags.spamPassword flags.chainID
          = (evs0, Res.ok ([sampleSpammer, Spammer.zero], ch)) →
        GetTxsSend env flags = (evs0 ++ evs, Outcome.running)) :=
  startWorkers_ring [sampleSpammer, Spammer.zero] (by decide)

/-- The ring at work on a pool of one and on the sample run. -/
theorem startWorkers_examples :
    startWorkers [sampleSpammer] 0 1 = some [Event.started 0 sampleSpammer sampleSpammer]
    ∧ startedWorkers (GetTxsSend sampleEnv sampleFlags).1
        = [(0, sampleSpammer, Spammer.zero), (1, Spammer.zero, sampleSpammer)]
    ∧ startWorkers [] 0 1 = none := by
  decide

/-- C7: `GetTxsSend` returns an error and starts no worker when the chain id is
empty, when the password is empty, and when `createSpammers` returns an empty
pool, as it does when no identity name starts with the prefix; for an empty
chain id or password no keystore call and no spawn is made. No worker is ever
started by a call that ends in an error. -/
theorem GetTxsSend_startup_errors (env : Env) (flags : Flags) :
    (flags.chainID = "" →
      GetTxsSend env flags = ([], Outcome.error "--chain-id is required"))
    ∧ (flags.chainID ≠ "" → flags.spamPassword = "" →
      GetTxsSend env flags = ([], Outcome.error "--spam-password is required"))
    ∧ (flags.chainID = "" ∨ flags.spamPassword = "" →
      (∃ msg, (GetTxsSend env flags).2 = Outcome.error msg) ∧
      keystoreCalls (GetTxsSend env flags).1 = 0 ∧ spawnedInfos (GetTxsSend env flags).1 = [] ∧
      startedWorkers (GetTxsSend env flags).1 = [])
    ∧ (∀ evs ch,
        createSpammers env flags.spamPrefix flags.spamPassword flags.chainID
          = (evs, Res.ok ([], ch)) →
        (∃ msg, (GetTxsSend env flags).2 = Outcome.error msg) ∧
        startedWorkers (GetTxsSend env flags).1 = [])
    ∧ (∀ infos, env.getKeyBase = Except.ok () → env.list = Except.ok infos →
        (∀ info ∈ infos, HasPrefix info.name flags.spamPrefix = false) →
        createSpammers env flags.spamPrefix flags.spamPassword flags.chainID
          = ([Event.keyBase, Event.listed], Res.ok ([], Chan.mk 1 1)) ∧
        (∃ msg, (GetTxsSend env flags).2 = Outcome.error msg) ∧
        startedWorkers (GetTxsSend env flags).1 = [])
    ∧ (∀ msg, (GetTxsSend env flags).2 = Outcome.error msg →
        startedWorkers (GetTxsSend env flags).1 = []) := by
  have hA : flags.chainID = "" →
      GetTxsSend env flags = ([], Outcome.error "--chain-id is required") := by
    intro h
    unfold GetTxsSend
    rw [if_pos h]
  have hB : flags.chainID ≠ "" → flags.spamPassword = "" →
      GetTxsSend env flags = ([], Outcome.error "--spam-password is required") := by
    intro h1 h2
    unfold GetTxsSend
    rw [if_neg h1, if_pos h2]
  have hC : flags.chainID = "" ∨ flags.spamPassword = "" →
      ∃ msg, GetTxsSend env flags = ([], Outcome.error msg) := by
    intro h
    by_cases hc : flags.chainID = ""
    · exact ⟨_, hA hc⟩
    · rcases h with h | h
      · exact absurd h hc
      · exact ⟨_, hB hc h⟩
  have hD : ∀ evs ch,
      createSpammers env flags.spamPrefix flags.spamPassword flags.chainID
        = (evs, Res.ok ([], ch)) →
      (∃ msg, (GetTxsSend env flags).2 = Outcome.error msg) ∧
      startedWorkers (GetTxsSend env flags).1 = [] := by
    intro evs ch h
    have hev := (createSpammers_events env flags.spamPrefix flags.spamPassword
      flags.chainID).2
    rw [h] at hev
    by_cases hc : flags.chainID = ""
    · rw [hA hc]; exact ⟨⟨_, rfl⟩, rfl⟩
    · by_cases hp : flags.spamPassword = ""
      · rw [hB hc hp]; exact ⟨⟨_, rfl⟩, rfl⟩
      · unfold GetTxsSend
        rw [if_neg hc, if_neg hp, h]
        exact ⟨⟨_, rfl⟩, hev⟩
  refine ⟨hA, hB, ?_, hD, ?_, ?_⟩
  · intro h
    obtain ⟨msg, hm⟩ := hC h
    rw [hm]
    exact ⟨⟨msg, rfl⟩, rfl, rfl, rfl⟩
  · intro infos hk hl hnone
    have hloop : ∀ (l : List Info), (∀ info ∈ l, HasPrefix info.name flags.spamPrefix = false) →
        ∀ acc j, createSpammersLoop env flags.spamPrefix flags.spamPassword flags.chainID
          l acc j = ([], some acc) := by
      intro l
      induction l with
      | nil => intro _ acc j; rfl
      | cons x xs ih =>
        intro hx acc j
        unfold createSpammersLoop
        rw [hx x (List.mem_cons_self _ _)]
        simp only [Bool.false_eq_true, if_false]
        exact ih (fun y hy => hx y (List.mem_cons_of_mem _ hy)) acc j
    have hcs : createSpammers env flags.spamPrefix flags.spamPassword flags.chainID
        = ([Event.keyBase, Event.listed], Res.ok ([], Chan.mk 1 1)) := by
      have hsend : (Chan.make 1).send = some (Chan.mk 1 1) := rfl
      unfold createSpammers
      rw [hk, hl]
      simp only [hsend, hloop infos hnone [] 0]
    exact ⟨hcs, hD _ _ hcs⟩
  · intro msg hm
    have hev := (createSpammers_events env flags.spamPrefix flags.spamPassword
      flags.chainID).2
    unfold GetTxsSend at hm ⊢
    by_cases hc : flags.chainID = ""
    · rw [if_pos hc]; rfl
    · rw [if_neg hc] at hm ⊢
      by_cases hp : flags.spamPassword = ""
      · rw [if_pos hp]; rfl
      · rw [if_neg hp] at hm ⊢
        cases hcs : createSpammers env flags.spamPrefix flags.spamPassword flags.chainID with
        | mk evs r =>
          rw [hcs] at hm hev
          cases r with
          | err e => exact hev
          | panicked => exact hev
          | ok a =>
            obtain ⟨spammers, ch⟩ := a
            simp only at hm ⊢
            by_cases hz : spammers.length = 0
            · simp only [hz, if_true]; exact hev
            · simp only [hz, if_false] at hm
              cases hsw : startWorkers spammers 0 spammers.length with
              | none => rw [hsw] at hm; simp at hm
              | some st => rw [hsw] at hm; simp at hm

/-- C7 at the sample keystore: no chain id, no password, and a prefix no
identity has. -/
theorem GetTxsSend_startup_errors_witness :
    GetTxsSend sampleEnv { sampleFlags with chainID := "" }
      = ([], Outcome.error "--chain-id is required")
    ∧ GetTxsSend sampleEnv { sampleFlags with spamPassword := "" }
      = ([], Outcome.error "--spam-password is required")
    ∧ (createSpammers sampleEnv "bot" "secret" "thorchain"
          = ([Event.keyBase, Event.listed], Res.ok ([], Chan.mk 1 1)) ∧
        (∃ msg, (GetTxsSend sampleEnv { sampleFlags with spamPrefix := "bot" }).2
          = Outcome.error msg) ∧
        startedWorkers (GetTxsSend sampleEnv { sampleFlags with spamPrefix := "bot" }).1 = []) :=
  ⟨(GetTxsSend_startup_errors sampleEnv { sampleFlags with chainID := "" }).1 (by decide),
   (GetTxsSend_startup_errors sampleEnv { sampleFlags with spamPassword := "" }).2.1
     (by decide) (by decide),
   (GetTxsSend_startup_errors sampleEnv { sampleFlags with spamPrefix := "bot" }).2.2.2.2.1
     [Info.mk "spam-0" [1], Info.mk "other" [2], Info.mk "spam-1" [3]]
     rfl rfl (by decide)⟩

/-- C6 fails on the code. In front of a chain with no account, the spawn of each
of the two matching identities fails (account not found) and returns `Spammer{}`;
`createSpammers` appends both zero spammers to the pool, so the pool has two
entries, and `GetTxsSend` reports no error and starts two workers. -/
theorem createSpammers_keeps_failed_spawns :
    (SpawnSpammer emptyChainEnv "spam-0" "secret" 0 (Info.mk "spam-0" [1]) "thorchain"
        ChanRef.gate = some Spammer.zero
      ∧ SpawnSpammer emptyChainEnv "spam-1" "secret" 1 (Info.mk "spam-1" [3]) "thorchain"
        ChanRef.gate = some Spammer.zero)
    ∧ createSpammers emptyChainEnv "spam" "secret" "thorchain"
        = ([Event.keyBase, Event.listed, Event.spawn (Info.mk "spam-0" [1]) 0,
            Event.spawn (Info.mk "spam-1" [3]) 1],
           Res.ok ([Spammer.zero, Spammer.zero], Chan.mk 1 1))
    ∧ (GetTxsSend emptyChainEnv sampleFlags).2 = Outcome.running
    ∧ startedWorkers (GetTxsSend emptyChainEnv sampleFlags).1
        = [(0, Spammer.zero, Spammer.zero), (1, Spammer.zero, Spammer.zero)] := by
  decide

end THORChain
